import Mathlib

/-!
# Verification of the vanilla full strong branching rule

Shallow embedding of `src/pyscipopt/branch_fullstrong_vanilla.c` (PySCIPOpt's
vanilla full strong branching plugin for SCIP).

`SCIP_Real` values are modelled by `ℚ`; SCIP's `SCIPinfinity(scip)` sentinel is
a host-supplied positive rational `Host.infinity`, so `-SCIPinfinity(scip)` is
`-h.infinity`.  Host services that live outside this repository
(`SCIPisGE`, `SCIPvarGetBranchFactor`, `SCIPgetBranchScore`, the LP oracle
`SCIPcolGetStrongbranch`, `SCIPisStopped`) are parameters of the model, exactly
as the spec treats them: external collaborators consulted through a fixed
interface.
-/

namespace Vanilla

/-- The five out-parameters of `SCIPgetVarStrongbranchFracVanilla`
(`down`, `up`, `downvalid`, `upvalid`, `lperror`), as one record of values. -/
structure FracOut where
  down : ℚ
  up : ℚ
  downvalid : Bool
  upvalid : Bool
  lperror : Bool
  deriving Repr, DecidableEq

/-- Host (SCIP) environment consulted by the branching rule: the node LP
objective, the cutoff bound, the infinity sentinel, the tolerance comparison
`SCIPisGE`, per-candidate branch factors `SCIPvarGetBranchFactor`, the score
combiner `SCIPgetBranchScore`, and the stop flag `SCIPisStopped`. -/
structure Host where
  lpobjval : ℚ
  cutoffbound : ℚ
  infinity : ℚ
  isGE : ℚ → ℚ → Bool
  branchFactor : Nat → ℚ
  branchScore : Nat → ℚ → ℚ → ℚ
  stopped : Bool

/-- Embedding of `SCIPgetVarStrongbranchFracVanilla` (branch_fullstrong_vanilla.c,
lines 121-178).  `stageOk`, `isColumn`, `inLP` are the outcomes of the
precondition checks (`SCIPcheckStage`, `SCIPvarGetStatus == COLUMN`,
`SCIPcolIsInLP`); `stopped` is `SCIPsolveIsStopped`; `oracle` is the external
LP probe `SCIPcolGetStrongbranch`, receiving the current contents of the out
parameters and rewriting them.  `init` holds the contents of the out
parameters at entry.  Returns `none` on a non-`SCIP_OKAY` retcode, otherwise
the final out-parameter contents paired with whether the LP oracle was
invoked. -/
def SCIPgetVarStrongbranchFracVanilla (stageOk isColumn inLP stopped : Bool)
    (oracle : FracOut → FracOut) (init : FracOut) : Option (FracOut × Bool) :=
  if !stageOk then none
  else
    let s1 : FracOut := { init with downvalid := false, upvalid := false }
    if !isColumn then none
    else if !inLP then none
    else if stopped then some ({ s1 with lperror := true }, false)
    else some (oracle s1, true)

/-- The per-candidate evaluation of a successful probe result `r` for candidate
`c` (branch_fullstrong_vanilla.c, lines 296-324): clamped bounds, gains,
per-side infeasibility flags and the score case split. -/
structure CandEval where
  down : ℚ
  up : ℚ
  downgain : ℚ
  upgain : ℚ
  downinf : Bool
  upinf : Bool
  score : ℚ
  deriving Repr

/-- Computes the `CandEval` for candidate `c` from the probe output `r`, exactly
following lines 297-324 of the C source. -/
def candEval (h : Host) (r : FracOut) (c : Nat) : CandEval :=
  let down := max r.down h.lpobjval
  let up := max r.up h.lpobjval
  let downgain := down - h.lpobjval
  let upgain := up - h.lpobjval
  let downinf := r.downvalid && h.isGE down h.cutoffbound
  let upinf := r.upvalid && h.isGE up h.cutoffbound
  let score :=
    if downinf ∧ upinf then h.infinity
    else if downinf then upgain * h.branchFactor c
    else if upinf then downgain * h.branchFactor c
    else h.branchScore c downgain upgain
  { down := down, up := up, downgain := downgain, upgain := upgain,
    downinf := downinf, upinf := upinf, score := score }

/-- State threaded through `SCIPselectVarStrongBranchingVanilla`: the best-*
out parameters, the `besthasinf` local, the two score buffers, plus
instrumentation of the external calls (number of probe invocations, whether
`SCIPstartStrongbranch` / `SCIPendStrongbranch` have been called). -/
structure SelState where
  bestcand : Nat
  bestdown : ℚ
  bestup : ℚ
  bestdownvalid : Bool
  bestupvalid : Bool
  bestscore : ℚ
  besthasinf : Bool
  provedbound : ℚ
  latestscores : List ℚ
  validscores : List Bool
  nprobes : Nat
  startcalled : Bool
  endcalled : Bool
  deriving Repr

/-- The part of a loop iteration after the `lperror` check (lines 296-351):
score evaluation, buffer writes and the best-candidate update for candidate
`c` with probe output `r`.  Returns the updated state and whether the loop
continues (`false` on the `!forcestrongbranch && downinf && upinf` break). -/
def stepEval (h : Host) (fsb : Bool) (r : FracOut) (c : Nat)
    (s : SelState) : SelState × Bool :=
  let e := candEval h r c
  let s1 := { s with
    validscores := if ¬ e.downinf ∧ ¬ e.upinf then s.validscores.set c true
                   else s.validscores,
    latestscores := s.latestscores.set c e.score }
  if (e.score > s1.bestscore ∧ (e.downinf ∨ e.upinf ∨ ¬ s1.besthasinf))
      ∨ (¬ s1.besthasinf ∧ (e.downinf ∨ e.upinf)) then
    let s2 := { s1 with
      bestcand := c, bestdown := e.down, bestup := e.up,
      bestdownvalid := r.downvalid, bestupvalid := r.upvalid,
      bestscore := e.score,
      besthasinf := if e.downinf ∨ e.upinf then true else s1.besthasinf }
    if ¬ fsb ∧ e.downinf ∧ e.upinf then (s2, false) else (s2, true)
  else (s1, true)

/-- One iteration of the candidate loop (lines 273-352) at candidate index `c`.
`probe c` is the net outcome of the `SCIPgetVarStrongbranchFracVanilla` call
for candidate `c` (all candidates are column variables in the LP, so the call
returns `SCIP_OKAY`).  Returns the updated state and whether the loop
continues (`false` on the `lperror` break at line 288-294 and on the
`!forcestrongbranch && downinf && upinf` break at lines 343-346). -/
def stepCand (h : Host) (fsb : Bool) (probe : Nat → FracOut) (c : Nat)
    (s : SelState) : SelState × Bool :=
  let r := probe c
  let s := { s with nprobes := s.nprobes + 1 }
  if r.lperror then (s, false)
  else stepEval h fsb r c s

/-- The candidate loop: processes candidates `c, c+1, …` while `fuel` remains
and no break fires. -/
def selectLoop (h : Host) (fsb : Bool) (probe : Nat → FracOut) :
    Nat → Nat → SelState → SelState
  | 0, _, s => s
  | fuel + 1, c, s =>
    match stepCand h fsb probe c s with
    | (s', true) => selectLoop h fsb probe fuel (c + 1) s'
    | (s', false) => s'

/-- `latestscores[c] := -∞` for `c = 0 … n-1`, in ascending order
(lines 262-266 write the first `n` cells of the caller's buffer). -/
def fillList (x : α) : Nat → List α → List α
  | 0, l => l
  | n + 1, l => (fillList x n l).set n x

/-- State after the initializations of lines 238-246: best candidate `0` with
the LP objective as both bounds and score `-∞`, untouched caller buffers. -/
def initSelState (h : Host) (ls0 : List ℚ) (vs0 : List Bool) : SelState :=
  { bestcand := 0, bestdown := h.lpobjval, bestup := h.lpobjval,
    bestdownvalid := true, bestupvalid := true,
    bestscore := -h.infinity, besthasinf := false,
    provedbound := h.lpobjval,
    latestscores := ls0, validscores := vs0,
    nprobes := 0, startcalled := false, endcalled := false }

/-- State on entry to the candidate loop: `SCIPstartStrongbranch` has been
called (line 258) and the first `nlpcands` cells of both buffers have been
reset to `-∞` / `FALSE` (lines 262-266). -/
def loopEntryState (h : Host) (nlpcands : Nat) (ls0 : List ℚ)
    (vs0 : List Bool) : SelState :=
  { initSelState h ls0 vs0 with
    startcalled := true,
    latestscores := fillList (-h.infinity) nlpcands ls0,
    validscores := fillList false nlpcands vs0 }

/-- Embedding of `SCIPselectVarStrongBranchingVanilla` (lines 188-358).
`ls0`/`vs0` are the contents of the caller's `latestscores`/`validscores`
buffers at entry; on the short-circuit return (line 251) they come back
untouched. -/
def SCIPselectVarStrongBranchingVanilla (h : Host) (fsb : Bool)
    (probe : Nat → FracOut) (nlpcands : Nat)
    (ls0 : List ℚ) (vs0 : List Bool) : SelState :=
  if (¬ fsb ∧ nlpcands = 1) ∨ h.stopped then initSelState h ls0 vs0
  else
    let s2 := selectLoop h fsb probe nlpcands 0 (loopEntryState h nlpcands ls0 vs0)
    { s2 with endcalled := true }

/-- Exactly `k` iterations of the loop body starting at candidate `c`,
ignoring the break conditions: describes intermediate loop states. -/
def runSteps (h : Host) (fsb : Bool) (probe : Nat → FracOut) :
    Nat → Nat → SelState → SelState
  | 0, _, s => s
  | k + 1, c, s => runSteps h fsb probe k (c + 1) (stepCand h fsb probe c s).1

/-- Candidate `c` is infeasible in both directions (`downinf && upinf`). -/
def bothInf (h : Host) (probe : Nat → FracOut) (c : Nat) : Prop :=
  (candEval h (probe c) c).downinf = true ∧ (candEval h (probe c) c).upinf = true

/-- Candidate `c` is infeasible in at least one direction
(`downinf || upinf`). -/
def someInf (h : Host) (probe : Nat → FracOut) (c : Nat) : Prop :=
  (candEval h (probe c) c).downinf = true ∨ (candEval h (probe c) c).upinf = true

/-- The best-update condition of line 329 for probe result `r` at candidate
`c` against state `s`. -/
def updCond (h : Host) (r : FracOut) (c : Nat) (s : SelState) : Prop :=
  ((candEval h r c).score > s.bestscore ∧
    ((candEval h r c).downinf ∨ (candEval h r c).upinf ∨ ¬ s.besthasinf))
  ∨ (¬ s.besthasinf ∧ ((candEval h r c).downinf ∨ (candEval h r c).upinf))

instance bothInfDecidable (h : Host) (probe : Nat → FracOut) (c : Nat) :
    Decidable (bothInf h probe c) :=
  inferInstanceAs (Decidable (_ = true ∧ _ = true))

instance someInfDecidable (h : Host) (probe : Nat → FracOut) (c : Nat) :
    Decidable (someInf h probe c) :=
  inferInstanceAs (Decidable (_ = true ∨ _ = true))

instance updCondDecidable (h : Host) (r : FracOut) (c : Nat) (s : SelState) :
    Decidable (updCond h r c s) :=
  inferInstanceAs (Decidable (_ ∨ _))

/-- `SCIP_RESULT` values relevant to the execute callback. -/
inductive SCIP_Result where
  | didnotrun
  | branched
  deriving Repr, DecidableEq

/-- The branching rule data record (`SCIP_BranchruleData`): configuration flag,
buffer length and the two optional score buffers (`none` models a null
pointer). -/
structure BranchruleData where
  forcestrongbranch : Bool
  scoresize : Nat
  latestscores : Option (List ℚ)
  validscores : Option (List Bool)
  deriving Repr

/-- Rule-data initialization in `SCIPincludeBranchruleFullstrongVanilla`
(lines 477-480): null buffers, `scoresize = 0`; `forcestrongbranch` is set by
the host parameter system (default `TRUE`). -/
def includeBranchruleData (fsb : Bool) : BranchruleData :=
  { forcestrongbranch := fsb, scoresize := 0,
    latestscores := none, validscores := none }

/-- `branchFreeFullstrong` (lines 73-88) frees both score buffers (and the rule
data itself); the buffers end null. -/
def branchFreeFullstrong (d : BranchruleData) : BranchruleData :=
  { d with latestscores := none, validscores := none }

/-- Result of one run of the execute callback. -/
structure ExecOut where
  data : BranchruleData
  sel : SelState
  result : SCIP_Result
  deriving Repr

/-- Embedding of `branchExeclpFullstrong` (lines 362-461) on its normal
completion path: sets `*result = SCIP_DIDNOTRUN`, frees any old buffers,
allocates both to length `nlpcands` and zero-clears them
(`BMSclearMemoryArray`: `0.0` / `FALSE`), runs the selection, performs the
branching on the selected candidate, and finally sets
`*result = SCIP_BRANCHED`. -/
def branchExeclpFullstrong (h : Host) (probe : Nat → FracOut)
    (d : BranchruleData) (nlpcands : Nat) : ExecOut :=
  let ls : List ℚ := List.replicate nlpcands 0
  let vs : List Bool := List.replicate nlpcands false
  let sel := SCIPselectVarStrongBranchingVanilla h d.forcestrongbranch probe
    nlpcands ls vs
  let d2 : BranchruleData := { d with
    scoresize := nlpcands,
    latestscores := some sel.latestscores,
    validscores := some sel.validscores }
  { data := d2, sel := sel, result := SCIP_Result.branched }

/-- Buffer invariant of the rule data: either both score buffers are null, or
both are allocated with length `scoresize`. -/
def buffersOk (d : BranchruleData) : Prop :=
  match d.latestscores, d.validscores with
  | none, none => True
  | some l, some v => l.length = d.scoresize ∧ v.length = d.scoresize
  | _, _ => False

theorem stepCand_lperror (h : Host) (fsb : Bool) (probe : Nat → FracOut) (c : Nat)
    (s : SelState) (he : (probe c).lperror = true) :
    stepCand h fsb probe c s = ({ s with nprobes := s.nprobes + 1 }, false) := by
  simp [stepCand, he]

theorem stepCand_ok (h : Host) (fsb : Bool) (probe : Nat → FracOut) (c : Nat)
    (s : SelState) (he : (probe c).lperror = false) :
    stepCand h fsb probe c s
      = stepEval h fsb (probe c) c { s with nprobes := s.nprobes + 1 } := by
  simp [stepCand, he]

theorem stepCand_nprobes (h : Host) (fsb : Bool) (probe : Nat → FracOut) (c : Nat)
    (s : SelState) :
    (stepCand h fsb probe c s).1.nprobes = s.nprobes + 1 := by
  simp only [stepCand, stepEval]
  split_ifs <;> simp

theorem stepCand_endcalled (h : Host) (fsb : Bool) (probe : Nat → FracOut) (c : Nat)
    (s : SelState) :
    (stepCand h fsb probe c s).1.endcalled = s.endcalled := by
  simp only [stepCand, stepEval]
  split_ifs <;> simp

theorem stepCand_startcalled (h : Host) (fsb : Bool) (probe : Nat → FracOut) (c : Nat)
    (s : SelState) :
    (stepCand h fsb probe c s).1.startcalled = s.startcalled := by
  simp only [stepCand, stepEval]
  split_ifs <;> simp

theorem stepCand_latest_length (h : Host) (fsb : Bool) (probe : Nat → FracOut) (c : Nat)
    (s : SelState) :
    (stepCand h fsb probe c s).1.latestscores.length = s.latestscores.length := by
  simp only [stepCand, stepEval]
  split_ifs <;> simp

theorem stepCand_valid_length (h : Host) (fsb : Bool) (probe : Nat → FracOut) (c : Nat)
    (s : SelState) :
    (stepCand h fsb probe c s).1.validscores.length = s.validscores.length := by
  simp only [stepCand, stepEval]
  split_ifs <;> simp

theorem stepCand_latest_frame (h : Host) (fsb : Bool) (probe : Nat → FracOut) (c : Nat)
    (s : SelState) (j : Nat) (hj : j ≠ c) :
    (stepCand h fsb probe c s).1.latestscores[j]? = s.latestscores[j]? := by
  simp only [stepCand, stepEval]
  split_ifs <;> simp [List.getElem?_set_ne (Ne.symm hj)]

theorem stepCand_valid_frame (h : Host) (fsb : Bool) (probe : Nat → FracOut) (c : Nat)
    (s : SelState) (j : Nat) (hj : j ≠ c) :
    (stepCand h fsb probe c s).1.validscores[j]? = s.validscores[j]? := by
  simp only [stepCand, stepEval]
  split_ifs <;> simp [List.getElem?_set_ne (Ne.symm hj)]

theorem stepEval_noUpdate (h : Host) (fsb : Bool) (r : FracOut) (c : Nat)
    (s : SelState) (hno : ¬ updCond h r c s) :
    stepEval h fsb r c s =
      ({ s with
          validscores := if ¬ (candEval h r c).downinf ∧ ¬ (candEval h r c).upinf
                         then s.validscores.set c true else s.validscores,
          latestscores := s.latestscores.set c (candEval h r c).score }, true) := by
  rw [updCond] at hno
  simp only [stepEval]
  rw [if_neg hno]

theorem stepEval_update (h : Host) (fsb : Bool) (r : FracOut) (c : Nat)
    (s : SelState) (hyes : updCond h r c s) :
    stepEval h fsb r c s =
      ({ s with
          validscores := if ¬ (candEval h r c).downinf ∧ ¬ (candEval h r c).upinf
                         then s.validscores.set c true else s.validscores,
          latestscores := s.latestscores.set c (candEval h r c).score,
          bestcand := c, bestdown := (candEval h r c).down,
          bestup := (candEval h r c).up,
          bestdownvalid := r.downvalid, bestupvalid := r.upvalid,
          bestscore := (candEval h r c).score,
          besthasinf := if (candEval h r c).downinf ∨ (candEval h r c).upinf
                        then true else s.besthasinf },
        if ¬ fsb ∧ (candEval h r c).downinf ∧ (candEval h r c).upinf
        then false else true) := by
  rw [updCond] at hyes
  simp only [stepEval]
  rw [if_pos hyes]
  split_ifs <;> rfl

theorem selectLoop_zero (h : Host) (fsb : Bool) (probe : Nat → FracOut) (c : Nat)
    (s : SelState) : selectLoop h fsb probe 0 c s = s := rfl

theorem selectLoop_succ_cont (h : Host) (fsb : Bool) (probe : Nat → FracOut)
    (fuel c : Nat) (s : SelState)
    (hcont : (stepCand h fsb probe c s).2 = true) :
    selectLoop h fsb probe (fuel + 1) c s
      = selectLoop h fsb probe fuel (c + 1) (stepCand h fsb probe c s).1 := by
  have h1 : stepCand h fsb probe c s = ((stepCand h fsb probe c s).1, true) := by
    rw [← hcont]
  conv_lhs => rw [selectLoop, h1]

theorem selectLoop_succ_stop (h : Host) (fsb : Bool) (probe : Nat → FracOut)
    (fuel c : Nat) (s : SelState)
    (hstop : (stepCand h fsb probe c s).2 = false) :
    selectLoop h fsb probe (fuel + 1) c s = (stepCand h fsb probe c s).1 := by
  have h1 : stepCand h fsb probe c s = ((stepCand h fsb probe c s).1, false) := by
    rw [← hstop]
  conv_lhs => rw [selectLoop, h1]

theorem runSteps_zero (h : Host) (fsb : Bool) (probe : Nat → FracOut) (c : Nat)
    (s : SelState) : runSteps h fsb probe 0 c s = s := rfl

theorem runSteps_succ (h : Host) (fsb : Bool) (probe : Nat → FracOut)
    (k c : Nat) (s : SelState) :
    runSteps h fsb probe (k + 1) c s
      = runSteps h fsb probe k (c + 1) (stepCand h fsb probe c s).1 := rfl

theorem selectLoop_eq_runSteps (h : Host) (fsb : Bool) (probe : Nat → FracOut)
    (k : Nat) :
    ∀ fuel c s, k ≤ fuel →
    (∀ i, i < k → (stepCand h fsb probe (c + i) (runSteps h fsb probe i c s)).2 = true) →
    selectLoop h fsb probe fuel c s
      = selectLoop h fsb probe (fuel - k) (c + k) (runSteps h fsb probe k c s) := by
  induction k with
  | zero => intro fuel c s _ _; simp [runSteps_zero]
  | succ k ih =>
    intro fuel c s hk H
    obtain ⟨fuel', rfl⟩ : ∃ fuel', fuel = fuel' + 1 := ⟨fuel - 1, by omega⟩
    have h0 : (stepCand h fsb probe c s).2 = true := by
      have := H 0 (by omega)
      simpa [runSteps_zero] using this
    rw [selectLoop_succ_cont h fsb probe fuel' c s h0]
    have heq := ih fuel' (c + 1) (stepCand h fsb probe c s).1 (by omega) ?_
    · rw [heq, runSteps_succ]
      have e1 : fuel' + 1 - (k + 1) = fuel' - k := by omega
      have e2 : c + (k + 1) = c + 1 + k := by omega
      rw [e1, e2]
    · intro i hi
      have := H (i + 1) (by omega)
      rw [runSteps_succ] at this
      have e3 : c + 1 + i = c + (i + 1) := by omega
      rw [e3]
      exact this

theorem score_of_bothInf (h : Host) (probe : Nat → FracOut) (c : Nat)
    (hb : bothInf h probe c) :
    (candEval h (probe c) c).score = h.infinity := by
  obtain ⟨hd, hu⟩ := hb
  simp only [candEval] at hd hu ⊢
  simp [hd, hu]

theorem score_of_someInf_not_both (h : Host) (probe : Nat → FracOut) (c : Nat)
    (hd : (candEval h (probe c) c).downinf = true)
    (hu : (candEval h (probe c) c).upinf = false) :
    (candEval h (probe c) c).score
      = (candEval h (probe c) c).upgain * h.branchFactor c := by
  simp only [candEval] at hd hu ⊢
  simp [hd, hu]

theorem stepCand_cont_of_not_both (h : Host) (fsb : Bool) (probe : Nat → FracOut)
    (c : Nat) (s : SelState)
    (herr : (probe c).lperror = false) (hnb : ¬ bothInf h probe c) :
    (stepCand h fsb probe c s).2 = true := by
  rw [stepCand_ok h fsb probe c s herr]
  rw [bothInf] at hnb
  by_cases hupd : updCond h (probe c) c { s with nprobes := s.nprobes + 1 }
  · rw [stepEval_update h fsb (probe c) c _ hupd]
    simp only
    rw [if_neg]
    intro hcon
    exact hnb ⟨hcon.2.1, hcon.2.2⟩
  · rw [stepEval_noUpdate h fsb (probe c) c _ hupd]

theorem stepCand_bestscore_lt (h : Host) (fsb : Bool) (probe : Nat → FracOut)
    (c : Nat) (s : SelState) (B : ℚ)
    (hbs : s.bestscore < B)
    (hsc : (candEval h (probe c) c).score < B) :
    (stepCand h fsb probe c s).1.bestscore < B := by
  by_cases herr : (probe c).lperror = true
  · rw [stepCand_lperror h fsb probe c s herr]
    exact hbs
  · rw [stepCand_ok h fsb probe c s (by simpa using herr)]
    by_cases hupd : updCond h (probe c) c { s with nprobes := s.nprobes + 1 }
    · rw [stepEval_update h fsb (probe c) c _ hupd]
      exact hsc
    · rw [stepEval_noUpdate h fsb (probe c) c _ hupd]
      exact hbs

theorem updCond_nprobes (h : Host) (r : FracOut) (c : Nat) (s : SelState) (m : Nat) :
    updCond h r c { s with nprobes := m } ↔ updCond h r c s := Iff.rfl

theorem stepCand_bothInf_step (h : Host) (fsb : Bool) (probe : Nat → FracOut)
    (c : Nat) (s : SelState)
    (herr : (probe c).lperror = false) (hb : bothInf h probe c)
    (hbs : s.bestscore < h.infinity) :
    (stepCand h fsb probe c s).1.bestcand = c
    ∧ (stepCand h fsb probe c s).1.bestscore = h.infinity
    ∧ (stepCand h fsb probe c s).1.besthasinf = true
    ∧ (stepCand h fsb probe c s).1.validscores = s.validscores
    ∧ (stepCand h fsb probe c s).1.latestscores = s.latestscores.set c h.infinity
    ∧ (stepCand h fsb probe c s).2 = fsb := by
  have hsc := score_of_bothInf h probe c hb
  obtain ⟨hd, hu⟩ := hb
  have hupd : updCond h (probe c) c { s with nprobes := s.nprobes + 1 } := by
    rw [updCond_nprobes]
    left
    constructor
    · rw [hsc]; exact hbs
    · left; exact hd
  rw [stepCand_ok h fsb probe c s herr, stepEval_update h fsb (probe c) c _ hupd]
  cases fsb <;> simp [hd, hu, hsc]

theorem stepCand_keepBest (h : Host) (fsb : Bool) (probe : Nat → FracOut)
    (c : Nat) (s : SelState)
    (herr : (probe c).lperror = false)
    (hbs : s.bestscore = h.infinity) (hinf : s.besthasinf = true)
    (hsc : ¬ bothInf h probe c → (candEval h (probe c) c).score < h.infinity) :
    (stepCand h fsb probe c s).1.bestcand = s.bestcand
    ∧ (stepCand h fsb probe c s).1.bestscore = s.bestscore
    ∧ (stepCand h fsb probe c s).1.besthasinf = true
    ∧ (stepCand h fsb probe c s).1.bestdown = s.bestdown
    ∧ (stepCand h fsb probe c s).1.bestup = s.bestup
    ∧ (stepCand h fsb probe c s).1.bestdownvalid = s.bestdownvalid
    ∧ (stepCand h fsb probe c s).1.bestupvalid = s.bestupvalid
    ∧ (stepCand h fsb probe c s).2 = true := by
  have hno : ¬ updCond h (probe c) c { s with nprobes := s.nprobes + 1 } := by
    rw [updCond_nprobes, updCond]
    rintro (⟨hgt, _⟩ | ⟨hnbest, _⟩)
    · by_cases hbothc : bothInf h probe c
      · rw [score_of_bothInf h probe c hbothc, hbs] at hgt
        exact lt_irrefl _ hgt
      · rw [hbs] at hgt
        exact absurd hgt (not_lt.mpr (le_of_lt (hsc hbothc)))
    · exact hnbest hinf
  rw [stepCand_ok h fsb probe c s herr, stepEval_noUpdate h fsb (probe c) c _ hno]
  simp [hinf]

theorem runSteps_nprobes (h : Host) (fsb : Bool) (probe : Nat → FracOut) :
    ∀ (k c : Nat) (s : SelState),
    (runSteps h fsb probe k c s).nprobes = s.nprobes + k := by
  intro k
  induction k with
  | zero => intro c s; rfl
  | succ k ih =>
    intro c s
    rw [runSteps_succ, ih, stepCand_nprobes]
    omega

theorem runSteps_endcalled (h : Host) (fsb : Bool) (probe : Nat → FracOut) :
    ∀ (k c : Nat) (s : SelState),
    (runSteps h fsb probe k c s).endcalled = s.endcalled := by
  intro k
  induction k with
  | zero => intro c s; rfl
  | succ k ih =>
    intro c s
    rw [runSteps_succ, ih, stepCand_endcalled]

theorem runSteps_latest_length (h : Host) (fsb : Bool) (probe : Nat → FracOut) :
    ∀ (k c : Nat) (s : SelState),
    (runSteps h fsb probe k c s).latestscores.length = s.latestscores.length := by
  intro k
  induction k with
  | zero => intro c s; rfl
  | succ k ih =>
    intro c s
    rw [runSteps_succ, ih, stepCand_latest_length]

theorem runSteps_valid_length (h : Host) (fsb : Bool) (probe : Nat → FracOut) :
    ∀ (k c : Nat) (s : SelState),
    (runSteps h fsb probe k c s).validscores.length = s.validscores.length := by
  intro k
  induction k with
  | zero => intro c s; rfl
  | succ k ih =>
    intro c s
    rw [runSteps_succ, ih, stepCand_valid_length]

theorem runSteps_latest_frame (h : Host) (fsb : Bool) (probe : Nat → FracOut) :
    ∀ (k c : Nat) (s : SelState) (j : Nat), (j < c ∨ c + k ≤ j) →
    (runSteps h fsb probe k c s).latestscores[j]? = s.latestscores[j]? := by
  intro k
  induction k with
  | zero => intro c s j _; rfl
  | succ k ih =>
    intro c s j hj
    rw [runSteps_succ, ih (c + 1) _ j (by omega),
      stepCand_latest_frame h fsb probe c s j (by omega)]

theorem runSteps_valid_frame (h : Host) (fsb : Bool) (probe : Nat → FracOut) :
    ∀ (k c : Nat) (s : SelState) (j : Nat), (j < c ∨ c + k ≤ j) →
    (runSteps h fsb probe k c s).validscores[j]? = s.validscores[j]? := by
  intro k
  induction k with
  | zero => intro c s j _; rfl
  | succ k ih =>
    intro c s j hj
    rw [runSteps_succ, ih (c + 1) _ j (by omega),
      stepCand_valid_frame h fsb probe c s j (by omega)]

theorem runSteps_bestscore_lt (h : Host) (fsb : Bool) (probe : Nat → FracOut)
    (B : ℚ) :
    ∀ (k c : Nat) (s : SelState), s.bestscore < B →
    (∀ i, i < k → (candEval h (probe (c + i)) (c + i)).score < B) →
    (runSteps h fsb probe k c s).bestscore < B := by
  intro k
  induction k with
  | zero => intro c s hs _; exact hs
  | succ k ih =>
    intro c s hs H
    rw [runSteps_succ]
    refine ih (c + 1) _ ?_ ?_
    · exact stepCand_bestscore_lt h fsb probe c s B hs (by simpa using H 0 (by omega))
    · intro i hi
      have := H (i + 1) (by omega)
      have e : c + 1 + i = c + (i + 1) := by omega
      rw [e]
      exact this

theorem runSteps_cont (h : Host) (fsb : Bool) (probe : Nat → FracOut)
    (k c : Nat) (s : SelState)
    (H : ∀ i, i < k → (probe (c + i)).lperror = false ∧ ¬ bothInf h probe (c + i)) :
    ∀ i, i < k → (stepCand h fsb probe (c + i) (runSteps h fsb probe i c s)).2 = true := by
  intro i hi
  exact stepCand_cont_of_not_both h fsb probe (c + i) _ (H i hi).1 (H i hi).2

theorem fillList_length (x : α) :
    ∀ (n : Nat) (l : List α), (fillList x n l).length = l.length
  | 0, _ => rfl
  | n + 1, l => by simp [fillList, fillList_length x n l]

theorem fillList_getElem? (x : α) :
    ∀ (n i : Nat) (l : List α), i < n → i < l.length →
    (fillList x n l)[i]? = some x := by
  intro n
  induction n with
  | zero => omega
  | succ n ih =>
    intro i l hi hl
    simp only [fillList]
    rcases Nat.lt_or_ge i n with hlt | hge
    · rw [List.getElem?_set_ne (by omega)]
      exact ih i l hlt hl
    · have hin : i = n := by omega
      subst hin
      have hlen : i < (fillList x i l).length := by
        rw [fillList_length]; exact hl
      simp [List.getElem?_set_self', hlen]

/-- **C3.** If `force_strong_branch` is false and candidate `c` is the first
candidate whose probe reports both `downinf` and `upinf` (with no `lperror` up
to and including `c`, and all earlier scores below the infinity sentinel),
then the selection loop stops at candidate `c`: exactly `c + 1` probes are
issued, and on exit `bestcand = c`, `bestscore = +∞` and
`validscores[c] = false`. -/
theorem c3_double_infeasible_breaks_loop (h : Host) (probe : Nat → FracOut)
    (nlpcands c : Nat) (ls0 : List ℚ) (vs0 : List Bool)
    (hstop : h.stopped = false) (hn : nlpcands ≠ 1)
    (hc : c < nlpcands)
    (hvs : vs0.length = nlpcands)
    (herr : ∀ i, i ≤ c → (probe i).lperror = false)
    (hpre : ∀ i, i < c → ¬ bothInf h probe i)
    (hb : bothInf h probe c)
    (hbound : ∀ i, i < c → (candEval h (probe i) i).score < h.infinity)
    (hpos : 0 < h.infinity) :
    (SCIPselectVarStrongBranchingVanilla h false probe nlpcands ls0 vs0).bestcand = c
    ∧ (SCIPselectVarStrongBranchingVanilla h false probe nlpcands ls0 vs0).bestscore
        = h.infinity
    ∧ (SCIPselectVarStrongBranchingVanilla h false probe nlpcands ls0 vs0).nprobes
        = c + 1
    ∧ (SCIPselectVarStrongBranchingVanilla h false probe nlpcands ls0 vs0).validscores[c]?
        = some false := by
  have hncond : ¬ ((¬ (false : Bool) ∧ nlpcands = 1) ∨ ((h.stopped : Bool) : Prop)) := by
    simp [hstop, hn]
  have e1 : SCIPselectVarStrongBranchingVanilla h false probe nlpcands ls0 vs0
      = { selectLoop h false probe nlpcands 0 (loopEntryState h nlpcands ls0 vs0) with
          endcalled := true } := by
    rw [SCIPselectVarStrongBranchingVanilla, if_neg hncond]
  have hrun : selectLoop h false probe nlpcands 0 (loopEntryState h nlpcands ls0 vs0)
      = selectLoop h false probe (nlpcands - c) (0 + c)
          (runSteps h false probe c 0 (loopEntryState h nlpcands ls0 vs0)) :=
    selectLoop_eq_runSteps h false probe c nlpcands 0 _ (by omega)
      (runSteps_cont h false probe c 0 _ (fun i hi => by
        rw [Nat.zero_add]
        exact ⟨herr i (by omega), hpre i hi⟩))
  have hbsA : (runSteps h false probe c 0 (loopEntryState h nlpcands ls0 vs0)).bestscore
      < h.infinity := by
    apply runSteps_bestscore_lt
    · show -h.infinity < h.infinity
      linarith
    · intro i hi
      simpa using hbound i hi
  have hstep := stepCand_bothInf_step h false probe c
    (runSteps h false probe c 0 (loopEntryState h nlpcands ls0 vs0))
    (herr c (le_refl c)) hb hbsA
  have hstop2 : (stepCand h false probe c
      (runSteps h false probe c 0 (loopEntryState h nlpcands ls0 vs0))).2 = false := by
    rw [hstep.2.2.2.2.2]
  obtain ⟨m, hm⟩ : ∃ m, nlpcands - c = m + 1 := ⟨nlpcands - c - 1, by omega⟩
  have e2 : selectLoop h false probe nlpcands 0 (loopEntryState h nlpcands ls0 vs0)
      = (stepCand h false probe c
          (runSteps h false probe c 0 (loopEntryState h nlpcands ls0 vs0))).1 := by
    rw [hrun, Nat.zero_add, hm]
    exact selectLoop_succ_stop h false probe m c _ hstop2
  rw [e1, e2]
  refine ⟨?_, ?_, ?_, ?_⟩
  · show (stepCand h false probe c _).1.bestcand = c
    exact hstep.1
  · show (stepCand h false probe c _).1.bestscore = h.infinity
    exact hstep.2.1
  · show (stepCand h false probe c _).1.nprobes = c + 1
    rw [stepCand_nprobes, runSteps_nprobes]
    show 0 + c + 1 = c + 1
    omega
  · show (stepCand h false probe c _).1.validscores[c]? = some false
    rw [hstep.2.2.2.1, runSteps_valid_frame h false probe c 0 _ c (Or.inr (by omega))]
    show (fillList false nlpcands vs0)[c]? = some false
    exact fillList_getElem? false nlpcands c vs0 hc (by rw [hvs]; exact hc)

/-- Concrete host used by witnesses: the external host functions are constant,
so concrete runs evaluate by kernel reduction. -/
def wHost : Host :=
  { lpobjval := 0, cutoffbound := 0, infinity := 1000,
    isGE := fun _ _ => true,
    branchFactor := fun _ => 1,
    branchScore := fun _ _ _ => 7,
    stopped := false }

/-- Probe trace for the C3 witness: candidate 0 feasible on both sides,
candidate 1 infeasible on both sides, candidate 2 feasible. -/
def probeC3 : Nat → FracOut
  | 1 => { down := 0, up := 0, downvalid := true, upvalid := true, lperror := false }
  | _ => { down := 0, up := 0, downvalid := false, upvalid := false, lperror := false }

theorem c3_witness :
    (SCIPselectVarStrongBranchingVanilla wHost false probeC3 3 (List.replicate 3 0)
      (List.replicate 3 false)).bestcand = 1
    ∧ (SCIPselectVarStrongBranchingVanilla wHost false probeC3 3 (List.replicate 3 0)
      (List.replicate 3 false)).bestscore = wHost.infinity
    ∧ (SCIPselectVarStrongBranchingVanilla wHost false probeC3 3 (List.replicate 3 0)
      (List.replicate 3 false)).nprobes = 1 + 1
    ∧ (SCIPselectVarStrongBranchingVanilla wHost false probeC3 3 (List.replicate 3 0)
      (List.replicate 3 false)).validscores[1]? = some false :=
  c3_double_infeasible_breaks_loop wHost probeC3 3 1 (List.replicate 3 0)
    (List.replicate 3 false) rfl (by decide) (by decide) (by decide) (by decide)
    (by decide) (by decide) (by decide) (by decide)

theorem selectLoop_keepBest (h : Host) (fsb : Bool) (probe : Nat → FracOut) :
    ∀ (fuel c : Nat) (s : SelState),
    s.bestscore = h.infinity → s.besthasinf = true →
    (∀ i, i < fuel → (probe (c + i)).lperror = false
      ∧ (¬ bothInf h probe (c + i) →
          (candEval h (probe (c + i)) (c + i)).score < h.infinity)) →
    (selectLoop h fsb probe fuel c s).bestcand = s.bestcand
    ∧ (selectLoop h fsb probe fuel c s).bestscore = h.infinity
    ∧ (selectLoop h fsb probe fuel c s).besthasinf = true := by
  intro fuel
  induction fuel with
  | zero => intro c s hbs hbi _; exact ⟨rfl, hbs, hbi⟩
  | succ fuel ih =>
    intro c s hbs hbi H
    have h0 := H 0 (by omega)
    rw [Nat.add_zero] at h0
    have hk := stepCand_keepBest h fsb probe c s h0.1 hbs hbi h0.2
    rw [selectLoop_succ_cont h fsb probe fuel c s hk.2.2.2.2.2.2.2]
    have hrest := ih (c + 1) (stepCand h fsb probe c s).1 (by rw [hk.2.1, hbs])
      hk.2.2.1
      (fun i hi => by
        have hHi := H (i + 1) (by omega)
        have e : c + 1 + i = c + (i + 1) := by omega
        rw [e]
        exact hHi)
    refine ⟨?_, hrest.2.1, hrest.2.2⟩
    rw [hrest.1, hk.1]

/-- **C10.** With `forcestrongbranch = true`, if candidate `j` is the first
candidate that is infeasible in both directions and no probe errors, the loop
runs to completion and `bestcand` is `j`: later `+∞`-scoring candidates never
displace the first one, because once `besthasinf` holds an update needs a
strictly greater score. -/
theorem c10_first_double_infeasible_wins (h : Host) (probe : Nat → FracOut)
    (nlpcands j : Nat) (ls0 : List ℚ) (vs0 : List Bool)
    (hstop : h.stopped = false)
    (herr : ∀ i, i < nlpcands → (probe i).lperror = false)
    (hj : j < nlpcands) (hjb : bothInf h probe j)
    (hjfirst : ∀ i, i < j → ¬ bothInf h probe i)
    (hbound : ∀ i, i < nlpcands → ¬ bothInf h probe i →
        (candEval h (probe i) i).score < h.infinity)
    (hpos : 0 < h.infinity) :
    (SCIPselectVarStrongBranchingVanilla h true probe nlpcands ls0 vs0).bestcand = j
    ∧ (SCIPselectVarStrongBranchingVanilla h true probe nlpcands ls0 vs0).bestscore
        = h.infinity
    ∧ (SCIPselectVarStrongBranchingVanilla h true probe nlpcands ls0 vs0).besthasinf
        = true := by
  have hncond : ¬ ((¬ (true : Bool) ∧ nlpcands = 1) ∨ ((h.stopped : Bool) : Prop)) := by
    simp [hstop]
  have e1 : SCIPselectVarStrongBranchingVanilla h true probe nlpcands ls0 vs0
      = { selectLoop h true probe nlpcands 0 (loopEntryState h nlpcands ls0 vs0) with
          endcalled := true } := by
    rw [SCIPselectVarStrongBranchingVanilla, if_neg hncond]
  have hrun : selectLoop h true probe nlpcands 0 (loopEntryState h nlpcands ls0 vs0)
      = selectLoop h true probe (nlpcands - j) (0 + j)
          (runSteps h true probe j 0 (loopEntryState h nlpcands ls0 vs0)) :=
    selectLoop_eq_runSteps h true probe j nlpcands 0 _ (by omega)
      (runSteps_cont h true probe j 0 _ (fun i hi => by
        rw [Nat.zero_add]
        exact ⟨herr i (by omega), hjfirst i hi⟩))
  have hbsA : (runSteps h true probe j 0 (loopEntryState h nlpcands ls0 vs0)).bestscore
      < h.infinity := by
    apply runSteps_bestscore_lt
    · show -h.infinity < h.infinity
      linarith
    · intro i hi
      have e : 0 + i = i := by omega
      rw [e]
      exact hbound i (by omega) (hjfirst i hi)
  have hstep := stepCand_bothInf_step h true probe j
    (runSteps h true probe j 0 (loopEntryState h nlpcands ls0 vs0))
    (herr j hj) hjb hbsA
  obtain ⟨m, hm⟩ : ∃ m, nlpcands - j = m + 1 := ⟨nlpcands - j - 1, by omega⟩
  have hkeep := selectLoop_keepBest h true probe m (j + 1)
    (stepCand h true probe j
      (runSteps h true probe j 0 (loopEntryState h nlpcands ls0 vs0))).1
    hstep.2.1 hstep.2.2.1
    (fun i hi => ⟨herr (j + 1 + i) (by omega),
      hbound (j + 1 + i) (by omega)⟩)
  have e2 : selectLoop h true probe nlpcands 0 (loopEntryState h nlpcands ls0 vs0)
      = selectLoop h true probe m (j + 1)
          (stepCand h true probe j
            (runSteps h true probe j 0 (loopEntryState h nlpcands ls0 vs0))).1 := by
    rw [hrun, Nat.zero_add, hm]
    exact selectLoop_succ_cont h true probe m j _ hstep.2.2.2.2.2
  rw [e1, e2]
  refine ⟨?_, ?_, ?_⟩
  · show (selectLoop h true probe m (j + 1) _).bestcand = j
    rw [hkeep.1, hstep.1]
  · show (selectLoop h true probe m (j + 1) _).bestscore = h.infinity
    exact hkeep.2.1
  · show (selectLoop h true probe m (j + 1) _).besthasinf = true
    exact hkeep.2.2

/-- Probe trace for the C10 witness: candidates 1 and 2 are infeasible in both
directions, candidates 0 and 3 are feasible. -/
def probeC10 : Nat → FracOut
  | 1 => { down := 0, up := 0, downvalid := true, upvalid := true, lperror := false }
  | 2 => { down := 0, up := 0, downvalid := true, upvalid := true, lperror := false }
  | _ => { down := 0, up := 0, downvalid := false, upvalid := false, lperror := false }

theorem c10_witness :
    (SCIPselectVarStrongBranchingVanilla wHost true probeC10 4 (List.replicate 4 0)
      (List.replicate 4 false)).bestcand = 1
    ∧ (SCIPselectVarStrongBranchingVanilla wHost true probeC10 4 (List.replicate 4 0)
      (List.replicate 4 false)).bestscore = wHost.infinity
    ∧ (SCIPselectVarStrongBranchingVanilla wHost true probeC10 4 (List.replicate 4 0)
      (List.replicate 4 false)).besthasinf = true :=
  c10_first_double_infeasible_wins wHost probeC10 4 1 (List.replicate 4 0)
    (List.replicate 4 false) rfl (by decide) (by decide) (by decide) (by decide)
    (by decide) (by decide)

/-- **C8.** If the probe of candidate `k` reports `lperror` (and no earlier
candidate errored or was infeasible on both sides), the loop exits after
exactly `k + 1` probe calls, `latestscores[c]` stays `-∞` for every `c ≥ k`,
`SCIPendStrongbranch` is still called, and the best-candidate data is exactly
what the first `k` iterations had recorded (in particular `bestcand = 0` when
`k = 0`). -/
theorem c8_lperror_aborts_loop (h : Host) (fsb : Bool) (probe : Nat → FracOut)
    (nlpcands k : Nat) (ls0 : List ℚ) (vs0 : List Bool)
    (hstop : h.stopped = false) (henter : ¬ (fsb = false ∧ nlpcands = 1))
    (hk : k < nlpcands)
    (hls : ls0.length = nlpcands)
    (herr : ∀ i, i < k → (probe i).lperror = false)
    (hnb : ∀ i, i < k → ¬ bothInf h probe i)
    (hkerr : (probe k).lperror = true) :
    (SCIPselectVarStrongBranchingVanilla h fsb probe nlpcands ls0 vs0).nprobes = k + 1
    ∧ (∀ c, k ≤ c → c < nlpcands →
        (SCIPselectVarStrongBranchingVanilla h fsb probe nlpcands ls0 vs0).latestscores[c]?
          = some (-h.infinity))
    ∧ (SCIPselectVarStrongBranchingVanilla h fsb probe nlpcands ls0 vs0).endcalled = true
    ∧ (SCIPselectVarStrongBranchingVanilla h fsb probe nlpcands ls0 vs0).bestcand
        = (runSteps h fsb probe k 0 (loopEntryState h nlpcands ls0 vs0)).bestcand
    ∧ (SCIPselectVarStrongBranchingVanilla h fsb probe nlpcands ls0 vs0).bestscore
        = (runSteps h fsb probe k 0 (loopEntryState h nlpcands ls0 vs0)).bestscore
    ∧ (SCIPselectVarStrongBranchingVanilla h fsb probe nlpcands ls0 vs0).bestdown
        = (runSteps h fsb probe k 0 (loopEntryState h nlpcands ls0 vs0)).bestdown
    ∧ (SCIPselectVarStrongBranchingVanilla h fsb probe nlpcands ls0 vs0).bestup
        = (runSteps h fsb probe k 0 (loopEntryState h nlpcands ls0 vs0)).bestup
    ∧ (k = 0 →
        (SCIPselectVarStrongBranchingVanilla h fsb probe nlpcands ls0 vs0).bestcand = 0) := by
  have hncond : ¬ ((¬ fsb ∧ nlpcands = 1) ∨ ((h.stopped : Bool) : Prop)) := by
    simp only [hstop]
    intro hcon
    rcases hcon with ⟨h1, h2⟩ | h2
    · exact henter ⟨by simpa using h1, h2⟩
    · simp at h2
  have e1 : SCIPselectVarStrongBranchingVanilla h fsb probe nlpcands ls0 vs0
      = { selectLoop h fsb probe nlpcands 0 (loopEntryState h nlpcands ls0 vs0) with
          endcalled := true } := by
    rw [SCIPselectVarStrongBranchingVanilla, if_neg hncond]
  have hrun : selectLoop h fsb probe nlpcands 0 (loopEntryState h nlpcands ls0 vs0)
      = selectLoop h fsb probe (nlpcands - k) (0 + k)
          (runSteps h fsb probe k 0 (loopEntryState h nlpcands ls0 vs0)) :=
    selectLoop_eq_runSteps h fsb probe k nlpcands 0 _ (by omega)
      (runSteps_cont h fsb probe k 0 _ (fun i hi => by
        rw [Nat.zero_add]
        exact ⟨herr i hi, hnb i hi⟩))
  have hstepk := stepCand_lperror h fsb probe k
    (runSteps h fsb probe k 0 (loopEntryState h nlpcands ls0 vs0)) hkerr
  have hstop2 : (stepCand h fsb probe k
      (runSteps h fsb probe k 0 (loopEntryState h nlpcands ls0 vs0))).2 = false := by
    rw [hstepk]
  obtain ⟨m, hm⟩ : ∃ m, nlpcands - k = m + 1 := ⟨nlpcands - k - 1, by omega⟩
  have e2 : selectLoop h fsb probe nlpcands 0 (loopEntryState h nlpcands ls0 vs0)
      = (stepCand h fsb probe k
          (runSteps h fsb probe k 0 (loopEntryState h nlpcands ls0 vs0))).1 := by
    rw [hrun, Nat.zero_add, hm]
    exact selectLoop_succ_stop h fsb probe m k _ hstop2
  have e3 : (stepCand h fsb probe k
      (runSteps h fsb probe k 0 (loopEntryState h nlpcands ls0 vs0))).1
      = { runSteps h fsb probe k 0 (loopEntryState h nlpcands ls0 vs0) with
          nprobes := (runSteps h fsb probe k 0 (loopEntryState h nlpcands ls0 vs0)).nprobes
            + 1 } := by
    rw [hstepk]
  rw [e1, e2, e3]
  refine ⟨?_, ?_, rfl, rfl, rfl, rfl, rfl, ?_⟩
  · show (runSteps h fsb probe k 0 (loopEntryState h nlpcands ls0 vs0)).nprobes + 1 = k + 1
    rw [runSteps_nprobes]
    show 0 + k + 1 = k + 1
    omega
  · intro c hc1 hc2
    show (runSteps h fsb probe k 0 (loopEntryState h nlpcands ls0 vs0)).latestscores[c]?
      = some (-h.infinity)
    rw [runSteps_latest_frame h fsb probe k 0 _ c (Or.inr (by omega))]
    show (fillList (-h.infinity) nlpcands ls0)[c]? = some (-h.infinity)
    exact fillList_getElem? (-h.infinity) nlpcands c ls0 hc2 (by rw [hls]; exact hc2)
  · intro hk0
    subst hk0
    rfl

/-- Probe trace for the C8 witness: candidate 0 succeeds (feasible both ways),
candidate 1 reports an LP error. -/
def probeC8 : Nat → FracOut
  | 1 => { down := 0, up := 0, downvalid := false, upvalid := false, lperror := true }
  | _ => { down := 0, up := 0, downvalid := false, upvalid := false, lperror := false }

theorem c8_witness :
    (SCIPselectVarStrongBranchingVanilla wHost true probeC8 3 (List.replicate 3 0)
      (List.replicate 3 false)).nprobes = 1 + 1
    ∧ (∀ c, 1 ≤ c → c < 3 →
        (SCIPselectVarStrongBranchingVanilla wHost true probeC8 3 (List.replicate 3 0)
          (List.replicate 3 false)).latestscores[c]? = some (-wHost.infinity))
    ∧ (SCIPselectVarStrongBranchingVanilla wHost true probeC8 3 (List.replicate 3 0)
      (List.replicate 3 false)).endcalled = true
    ∧ (SCIPselectVarStrongBranchingVanilla wHost true probeC8 3 (List.replicate 3 0)
      (List.replicate 3 false)).bestcand
        = (runSteps wHost true probeC8 1 0
            (loopEntryState wHost 3 (List.replicate 3 0) (List.replicate 3 false))).bestcand
    ∧ (SCIPselectVarStrongBranchingVanilla wHost true probeC8 3 (List.replicate 3 0)
      (List.replicate 3 false)).bestscore
        = (runSteps wHost true probeC8 1 0
            (loopEntryState wHost 3 (List.replicate 3 0) (List.replicate 3 false))).bestscore
    ∧ (SCIPselectVarStrongBranchingVanilla wHost true probeC8 3 (List.replicate 3 0)
      (List.replicate 3 false)).bestdown
        = (runSteps wHost true probeC8 1 0
            (loopEntryState wHost 3 (List.replicate 3 0) (List.replicate 3 false))).bestdown
    ∧ (SCIPselectVarStrongBranchingVanilla wHost true probeC8 3 (List.replicate 3 0)
      (List.replicate 3 false)).bestup
        = (runSteps wHost true probeC8 1 0
            (loopEntryState wHost 3 (List.replicate 3 0) (List.replicate 3 false))).bestup
    ∧ ((1 : Nat) = 0 →
        (SCIPselectVarStrongBranchingVanilla wHost true probeC8 3 (List.replicate 3 0)
          (List.replicate 3 false)).bestcand = 0) :=
  c8_lperror_aborts_loop wHost true probeC8 3 1 (List.replicate 3 0)
    (List.replicate 3 false) rfl (by decide) (by decide) (by decide) (by decide)
    (by decide) (by decide)

theorem candEval_score_cases (h : Host) (r : FracOut) (c : Nat) :
    (candEval h r c).score =
      if (candEval h r c).downinf ∧ (candEval h r c).upinf then h.infinity
      else if (candEval h r c).downinf then (candEval h r c).upgain * h.branchFactor c
      else if (candEval h r c).upinf then (candEval h r c).downgain * h.branchFactor c
      else h.branchScore c (candEval h r c).downgain (candEval h r c).upgain := rfl

/-- **C2.** A candidate that probes successfully and is infeasible on at least
one side always becomes the new best when the incumbent carries no
infeasibility — no matter how its score compares — and `besthasinf` is true
afterwards. -/
theorem c2_inf_supersedes_noninf_best (h : Host) (fsb : Bool)
    (probe : Nat → FracOut) (c : Nat) (s : SelState)
    (herr : (probe c).lperror = false)
    (hbest : s.besthasinf = false)
    (hinf : someInf h probe c) :
    (stepCand h fsb probe c s).1.bestcand = c
    ∧ (stepCand h fsb probe c s).1.bestscore = (candEval h (probe c) c).score
    ∧ (stepCand h fsb probe c s).1.besthasinf = true := by
  rcases hinf with hd | hd
  all_goals {
    have hupd : updCond h (probe c) c { s with nprobes := s.nprobes + 1 } := by
      rw [updCond_nprobes, updCond]
      right
      constructor
      · simp [hbest]
      · simp [hd]
    rw [stepCand_ok h fsb probe c s herr, stepEval_update h fsb (probe c) c _ hupd]
    refine ⟨rfl, rfl, ?_⟩
    show (if ((candEval h (probe c) c).downinf : Prop) ∨ (candEval h (probe c) c).upinf
          then true else s.besthasinf) = true
    simp [hd]
  }

/-- Probe trace for the C2 witness: every candidate is down-infeasible
(valid down bound at the cutoff) with a one-sided score of 0. -/
def probeC2 : Nat → FracOut := fun _ =>
  { down := 0, up := 0, downvalid := true, upvalid := false, lperror := false }

/-- Incumbent state for the C2 witness: a regular best with score 50 and no
infeasibility. -/
def c2State : SelState :=
  { bestcand := 0, bestdown := 0, bestup := 0, bestdownvalid := true,
    bestupvalid := true, bestscore := 50, besthasinf := false, provedbound := 0,
    latestscores := [50, -1000], validscores := [true, false],
    nprobes := 1, startcalled := true, endcalled := false }

theorem c2_witness :
    ((stepCand wHost true probeC2 1 c2State).1.bestcand = 1
      ∧ (stepCand wHost true probeC2 1 c2State).1.bestscore
          = (candEval wHost (probeC2 1) 1).score
      ∧ (stepCand wHost true probeC2 1 c2State).1.besthasinf = true)
    ∧ (candEval wHost (probeC2 1) 1).score < c2State.bestscore :=
  ⟨c2_inf_supersedes_noninf_best wHost true probeC2 1 c2State (by decide) rfl
      (by decide),
    by norm_num [candEval, wHost, probeC2, c2State]⟩

/-- Host for the C1 counterexample: the host combiner scores regular
candidates at 50. -/
def c1Host : Host :=
  { lpobjval := 0, cutoffbound := 0, infinity := 1000,
    isGE := fun _ _ => true, branchFactor := fun _ => 1,
    branchScore := fun _ _ _ => 50, stopped := false }

/-- Probe trace for the C1 counterexample: regular candidates only (no valid
bound on either side). -/
def probeC1 : Nat → FracOut := fun _ =>
  { down := 0, up := 0, downvalid := false, upvalid := false, lperror := false }

/-- Incumbent state for the C1 counterexample: candidate 0 was one-side
infeasible with score 5, so `besthasinf` is set. -/
def c1State : SelState :=
  { bestcand := 0, bestdown := 0, bestup := 0, bestdownvalid := true,
    bestupvalid := false, bestscore := 5, besthasinf := true, provedbound := 0,
    latestscores := [5, -1000], validscores := [false, false],
    nprobes := 1, startcalled := true, endcalled := false }

/-- **C1 as stated is false of the code:** with `besthasinf = true` and a
regular follow-up candidate scoring 50 against an incumbent score of 5, the
incumbent is kept — a strictly higher score alone does not displace an
infeasibility-bearing best. -/
theorem c1_counterexample :
    (candEval c1Host (probeC1 1) 1).downinf = false
    ∧ (candEval c1Host (probeC1 1) 1).upinf = false
    ∧ (candEval c1Host (probeC1 1) 1).score = 50
    ∧ c1State.besthasinf = true
    ∧ c1State.bestscore = 5
    ∧ ((50 : ℚ) > 5)
    ∧ (stepCand c1Host false probeC1 1 c1State).1.bestcand = 0
    ∧ (stepCand c1Host false probeC1 1 c1State).1.bestscore = 5 := by
  decide

/-- **C1 (amended).** Once the incumbent carries an infeasibility, a later
successfully probed candidate displaces it exactly when it scores strictly
higher AND is itself infeasibility-bearing; a regular candidate never
displaces such a best. -/
theorem c1_amended_displacement_needs_inf (h : Host) (fsb : Bool)
    (probe : Nat → FracOut) (c : Nat) (s : SelState)
    (herr : (probe c).lperror = false)
    (hbest : s.besthasinf = true) :
    (stepCand h fsb probe c s).1.bestcand
      = (if (candEval h (probe c) c).score > s.bestscore ∧ someInf h probe c
         then c else s.bestcand)
    ∧ (stepCand h fsb probe c s).1.bestscore
      = (if (candEval h (probe c) c).score > s.bestscore ∧ someInf h probe c
         then (candEval h (probe c) c).score else s.bestscore) := by
  by_cases hcond : (candEval h (probe c) c).score > s.bestscore ∧ someInf h probe c
  · have hupd : updCond h (probe c) c { s with nprobes := s.nprobes + 1 } := by
      rw [updCond_nprobes, updCond]
      left
      refine ⟨hcond.1, ?_⟩
      rcases hcond.2 with hd | hd
      · exact Or.inl hd
      · exact Or.inr (Or.inl hd)
    rw [stepCand_ok h fsb probe c s herr, stepEval_update h fsb (probe c) c _ hupd]
    rw [if_pos hcond, if_pos hcond]
    exact ⟨rfl, rfl⟩
  · have hno : ¬ updCond h (probe c) c { s with nprobes := s.nprobes + 1 } := by
      rw [updCond_nprobes, updCond]
      rintro (⟨hgt, hor⟩ | ⟨hnb, _⟩)
      · refine hcond ⟨hgt, ?_⟩
        rw [someInf]
        rcases hor with hd | hd | hno2
        · exact Or.inl hd
        · exact Or.inr hd
        · exact absurd hbest hno2
      · exact hnb hbest
    rw [stepCand_ok h fsb probe c s herr, stepEval_noUpdate h fsb (probe c) c _ hno]
    rw [if_neg hcond, if_neg hcond]
    exact ⟨rfl, rfl⟩

theorem c1_witness :
    (stepCand c1Host false probeC1 1 c1State).1.bestcand
      = (if (candEval c1Host (probeC1 1) 1).score > c1State.bestscore
            ∧ someInf c1Host probeC1 1
         then 1 else c1State.bestcand)
    ∧ (stepCand c1Host false probeC1 1 c1State).1.bestscore
      = (if (candEval c1Host (probeC1 1) 1).score > c1State.bestscore
            ∧ someInf c1Host probeC1 1
         then (candEval c1Host (probeC1 1) 1).score else c1State.bestscore) :=
  c1_amended_displacement_needs_inf c1Host false probeC1 1 c1State (by decide) rfl

/-- **C7.** For a successfully probed candidate `c`, the score written to
`latestscores[c]` follows the case split (`+∞` / `upgain·factor` /
`downgain·factor` / host combiner), and `validscores[c]` is set true exactly
when neither side is infeasible. -/
theorem c7_score_trace_case_split (h : Host) (fsb : Bool)
    (probe : Nat → FracOut) (c : Nat) (s : SelState)
    (herr : (probe c).lperror = false)
    (hlen : c < s.latestscores.length)
    (hv0 : s.validscores[c]? = some false) :
    (stepCand h fsb probe c s).1.latestscores[c]? = some (candEval h (probe c) c).score
    ∧ ((candEval h (probe c) c).downinf = true → (candEval h (probe c) c).upinf = true →
        (candEval h (probe c) c).score = h.infinity)
    ∧ ((candEval h (probe c) c).downinf = true → (candEval h (probe c) c).upinf = false →
        (candEval h (probe c) c).score
          = (candEval h (probe c) c).upgain * h.branchFactor c)
    ∧ ((candEval h (probe c) c).downinf = false → (candEval h (probe c) c).upinf = true →
        (candEval h (probe c) c).score
          = (candEval h (probe c) c).downgain * h.branchFactor c)
    ∧ ((candEval h (probe c) c).downinf = false → (candEval h (probe c) c).upinf = false →
        (candEval h (probe c) c).score
          = h.branchScore c (candEval h (probe c) c).downgain (candEval h (probe c) c).upgain)
    ∧ (stepCand h fsb probe c s).1.validscores[c]?
        = some (!(candEval h (probe c) c).downinf && !(candEval h (probe c) c).upinf) := by
  have hlat : (stepCand h fsb probe c s).1.latestscores[c]?
      = some (candEval h (probe c) c).score := by
    rw [stepCand_ok h fsb probe c s herr]
    by_cases hupd : updCond h (probe c) c { s with nprobes := s.nprobes + 1 }
    · rw [stepEval_update h fsb (probe c) c _ hupd]
      show (s.latestscores.set c (candEval h (probe c) c).score)[c]? = _
      simp [List.getElem?_set_self', hlen]
    · rw [stepEval_noUpdate h fsb (probe c) c _ hupd]
      show (s.latestscores.set c (candEval h (probe c) c).score)[c]? = _
      simp [List.getElem?_set_self', hlen]
  have hvalid : (stepCand h fsb probe c s).1.validscores[c]?
      = some (!(candEval h (probe c) c).downinf && !(candEval h (probe c) c).upinf) := by
    have hvlen : c < s.validscores.length := by
      by_contra hcon
      rw [List.getElem?_eq_none (by omega)] at hv0
      exact Option.noConfusion hv0
    have key : ∀ s' : SelState, s'.validscores = s.validscores →
        (if ¬ (candEval h (probe c) c).downinf ∧ ¬ (candEval h (probe c) c).upinf
          then s'.validscores.set c true else s'.validscores)[c]?
        = some (!(candEval h (probe c) c).downinf && !(candEval h (probe c) c).upinf) := by
      intro s' hs'
      rw [hs']
      by_cases hni : ¬ (candEval h (probe c) c).downinf ∧ ¬ (candEval h (probe c) c).upinf
      · rw [if_pos hni]
        obtain ⟨h1, h2⟩ := hni
        simp only [Bool.not_eq_true] at h1 h2
        rw [h1, h2]
        simp [List.getElem?_set_self', hvlen]
      · rw [if_neg hni, hv0]
        have hfalse : (!(candEval h (probe c) c).downinf
            && !(candEval h (probe c) c).upinf) = false := by
          by_cases hdi : (candEval h (probe c) c).downinf = true
          · simp [hdi]
          · by_cases hui : (candEval h (probe c) c).upinf = true
            · simp [hui]
            · exact absurd ⟨hdi, hui⟩ hni
        rw [hfalse]
    rw [stepCand_ok h fsb probe c s herr]
    by_cases hupd : updCond h (probe c) c { s with nprobes := s.nprobes + 1 }
    · rw [stepEval_update h fsb (probe c) c _ hupd]
      exact key { s with nprobes := s.nprobes + 1 } rfl
    · rw [stepEval_noUpdate h fsb (probe c) c _ hupd]
      exact key { s with nprobes := s.nprobes + 1 } rfl
  refine ⟨hlat, ?_, ?_, ?_, ?_, hvalid⟩
  · intro hd hu
    rw [candEval_score_cases]
    simp [hd, hu]
  · intro hd hu
    rw [candEval_score_cases]
    simp [hd, hu]
  · intro hd hu
    rw [candEval_score_cases]
    simp [hd, hu]
  · intro hd hu
    rw [candEval_score_cases]
    simp [hd, hu]

theorem c7_witness :
    (stepCand wHost true probeC2 1 c2State).1.latestscores[1]?
        = some (candEval wHost (probeC2 1) 1).score
    ∧ ((candEval wHost (probeC2 1) 1).downinf = true →
        (candEval wHost (probeC2 1) 1).upinf = true →
        (candEval wHost (probeC2 1) 1).score = wHost.infinity)
    ∧ ((candEval wHost (probeC2 1) 1).downinf = true →
        (candEval wHost (probeC2 1) 1).upinf = false →
        (candEval wHost (probeC2 1) 1).score
          = (candEval wHost (probeC2 1) 1).upgain * wHost.branchFactor 1)
    ∧ ((candEval wHost (probeC2 1) 1).downinf = false →
        (candEval wHost (probeC2 1) 1).upinf = true →
        (candEval wHost (probeC2 1) 1).score
          = (candEval wHost (probeC2 1) 1).downgain * wHost.branchFactor 1)
    ∧ ((candEval wHost (probeC2 1) 1).downinf = false →
        (candEval wHost (probeC2 1) 1).upinf = false →
        (candEval wHost (probeC2 1) 1).score
          = wHost.branchScore 1 (candEval wHost (probeC2 1) 1).downgain
              (candEval wHost (probeC2 1) 1).upgain)
    ∧ (stepCand wHost true probeC2 1 c2State).1.validscores[1]?
        = some (!(candEval wHost (probeC2 1) 1).downinf
            && !(candEval wHost (probeC2 1) 1).upinf) :=
  c7_score_trace_case_split wHost true probeC2 1 c2State (by decide) (by decide)
    (by decide)

/-- Initial out-parameter contents for the C4 counterexample: both validity
flags start out `TRUE`. -/
def c4Init : FracOut :=
  { down := 3, up := 4, downvalid := true, upvalid := true, lperror := false }

/-- **C4 as stated is false of the code:** when the solver is being stopped,
the probe wrapper has already reset `downvalid` and `upvalid` to `FALSE`
(lines 145-148 run before the stop check of line 166), so those two outputs do
not stay untouched. -/
theorem c4_counterexample :
    SCIPgetVarStrongbranchFracVanilla true true true true id c4Init
      = some ({ down := 3, up := 4, downvalid := false, upvalid := false,
                lperror := true }, false)
    ∧ false ≠ c4Init.downvalid ∧ false ≠ c4Init.upvalid := by
  decide

/-- **C4 (amended).** When the solver is being stopped (with the stage and
column preconditions satisfied), the probe returns `SCIP_OKAY` with
`lperror = true`, leaves `down` and `up` untouched and never invokes the LP
oracle — but `downvalid` and `upvalid` have already been cleared to `FALSE`
by the unconditional initialization at the top of the function. -/
theorem c4_stopped_soft_error (oracle : FracOut → FracOut) (init : FracOut) :
    SCIPgetVarStrongbranchFracVanilla true true true true oracle init
      = some ({ down := init.down, up := init.up, downvalid := false,
                upvalid := false, lperror := true }, false) := rfl

/-- **C5 as stated is false of the code:** with one candidate and
`forcestrongbranch = false` the selection short-circuits before the loop
(zero probe calls), yet the execute callback still performs the branching and
returns `SCIP_BRANCHED` to the host, not `SCIP_DIDNOTRUN`. -/
theorem c5_counterexample :
    (branchExeclpFullstrong wHost probeC1 (includeBranchruleData false) 1).sel.nprobes = 0
    ∧ (branchExeclpFullstrong wHost probeC1 (includeBranchruleData false) 1).result
        = SCIP_Result.branched
    ∧ SCIP_Result.branched ≠ SCIP_Result.didnotrun := by
  decide

/-- **C5 (amended).** On every normal completion of the execute callback the
result flag handed back to the host is `SCIP_BRANCHED`, whether or not the
selection loop ran; `SCIP_DIDNOTRUN` is only the transient value set on entry
and is always overwritten after the branching is performed. -/
theorem c5_result_always_branched (h : Host) (probe : Nat → FracOut)
    (d : BranchruleData) (nlpcands : Nat) :
    (branchExeclpFullstrong h probe d nlpcands).result = SCIP_Result.branched := rfl

/-- **C6 as stated is false of the code:** on the single-candidate
short-circuit the score buffer holds the zero-cleared value `0.0`, not `-∞` —
the `-∞` fill of lines 262-266 runs only after the short-circuit check of
line 251. -/
theorem c6_counterexample :
    (branchExeclpFullstrong wHost probeC1 (includeBranchruleData false) 1).data.latestscores
      = some [0]
    ∧ (0 : ℚ) ≠ -wHost.infinity := by
  decide

/-- **C6 (amended).** If `nlpcands = 1` and `forcestrongbranch = false`, the
probe is never invoked and the buffers keep the content the execute callback
zero-cleared them to (`0.0` / `FALSE`); the `-∞` fill belongs to the loop path
and is skipped by the short-circuit. -/
theorem c6_single_cand_no_probe (h : Host) (probe : Nat → FracOut)
    (d : BranchruleData) (hfsb : d.forcestrongbranch = false) :
    (branchExeclpFullstrong h probe d 1).sel.nprobes = 0
    ∧ (branchExeclpFullstrong h probe d 1).data.latestscores = some [(0 : ℚ)]
    ∧ (branchExeclpFullstrong h probe d 1).data.validscores = some [false] := by
  have e1 : SCIPselectVarStrongBranchingVanilla h d.forcestrongbranch probe 1
      (List.replicate 1 0) (List.replicate 1 false)
      = initSelState h (List.replicate 1 0) (List.replicate 1 false) := by
    rw [SCIPselectVarStrongBranchingVanilla, if_pos]
    left
    exact ⟨by simp [hfsb], rfl⟩
  refine ⟨?_, ?_, ?_⟩
  · show (SCIPselectVarStrongBranchingVanilla h d.forcestrongbranch probe 1
      (List.replicate 1 0) (List.replicate 1 false)).nprobes = 0
    rw [e1]
    rfl
  · show some (SCIPselectVarStrongBranchingVanilla h d.forcestrongbranch probe 1
      (List.replicate 1 0) (List.replicate 1 false)).latestscores = some [(0 : ℚ)]
    rw [e1]
    rfl
  · show some (SCIPselectVarStrongBranchingVanilla h d.forcestrongbranch probe 1
      (List.replicate 1 0) (List.replicate 1 false)).validscores = some [false]
    rw [e1]
    rfl

theorem c6_witness :
    (branchExeclpFullstrong wHost probeC1 (includeBranchruleData false) 1).sel.nprobes = 0
    ∧ (branchExeclpFullstrong wHost probeC1 (includeBranchruleData false) 1).data.latestscores
        = some [(0 : ℚ)]
    ∧ (branchExeclpFullstrong wHost probeC1 (includeBranchruleData false) 1).data.validscores
        = some [false] :=
  c6_single_cand_no_probe wHost probeC1 (includeBranchruleData false) rfl

theorem selectLoop_latest_length (h : Host) (fsb : Bool) (probe : Nat → FracOut) :
    ∀ (fuel c : Nat) (s : SelState),
    (selectLoop h fsb probe fuel c s).latestscores.length = s.latestscores.length := by
  intro fuel
  induction fuel with
  | zero => intro c s; rfl
  | succ fuel ih =>
    intro c s
    cases hcont : (stepCand h fsb probe c s).2 with
    | false =>
      rw [selectLoop_succ_stop h fsb probe fuel c s hcont]
      exact stepCand_latest_length h fsb probe c s
    | true =>
      rw [selectLoop_succ_cont h fsb probe fuel c s hcont, ih]
      exact stepCand_latest_length h fsb probe c s

theorem selectLoop_valid_length (h : Host) (fsb : Bool) (probe : Nat → FracOut) :
    ∀ (fuel c : Nat) (s : SelState),
    (selectLoop h fsb probe fuel c s).validscores.length = s.validscores.length := by
  intro fuel
  induction fuel with
  | zero => intro c s; rfl
  | succ fuel ih =>
    intro c s
    cases hcont : (stepCand h fsb probe c s).2 with
    | false =>
      rw [selectLoop_succ_stop h fsb probe fuel c s hcont]
      exact stepCand_valid_length h fsb probe c s
    | true =>
      rw [selectLoop_succ_cont h fsb probe fuel c s hcont, ih]
      exact stepCand_valid_length h fsb probe c s

theorem select_buffer_lengths (h : Host) (fsb : Bool) (probe : Nat → FracOut)
    (n : Nat) (ls0 : List ℚ) (vs0 : List Bool) :
    (SCIPselectVarStrongBranchingVanilla h fsb probe n ls0 vs0).latestscores.length
      = ls0.length
    ∧ (SCIPselectVarStrongBranchingVanilla h fsb probe n ls0 vs0).validscores.length
      = vs0.length := by
  rw [SCIPselectVarStrongBranchingVanilla]
  split_ifs
  · exact ⟨rfl, rfl⟩
  · constructor
    · show (selectLoop h fsb probe n 0 (loopEntryState h n ls0 vs0)).latestscores.length
        = ls0.length
      rw [selectLoop_latest_length]
      exact fillList_length (-h.infinity) n ls0
    · show (selectLoop h fsb probe n 0 (loopEntryState h n ls0 vs0)).validscores.length
        = vs0.length
      rw [selectLoop_valid_length]
      exact fillList_length false n vs0

/-- **C9.** The two score buffers of the rule data are always either both null
or both allocated with length `scoresize`; creation, destruction and execution
preserve the invariant, and after an execution with `nlpcands = n` both
buffers have length `n`. -/
theorem c9_buffer_pairing_invariant :
    (∀ fsb : Bool, buffersOk (includeBranchruleData fsb))
    ∧ (∀ d : BranchruleData, buffersOk d → buffersOk (branchFreeFullstrong d))
    ∧ (∀ (h : Host) (probe : Nat → FracOut) (d : BranchruleData) (n : Nat),
        buffersOk (branchExeclpFullstrong h probe d n).data
        ∧ (branchExeclpFullstrong h probe d n).data.scoresize = n
        ∧ ∃ ls vs,
            (branchExeclpFullstrong h probe d n).data.latestscores = some ls
            ∧ (branchExeclpFullstrong h probe d n).data.validscores = some vs
            ∧ ls.length = n ∧ vs.length = n) := by
  refine ⟨?_, ?_, ?_⟩
  · intro fsb
    trivial
  · intro d _
    trivial
  · intro h probe d n
    have hlen := select_buffer_lengths h d.forcestrongbranch probe n
      (List.replicate n 0) (List.replicate n false)
    have hlen1 : (SCIPselectVarStrongBranchingVanilla h d.forcestrongbranch probe n
        (List.replicate n 0) (List.replicate n false)).latestscores.length = n := by
      rw [hlen.1, List.length_replicate]
    have hlen2 : (SCIPselectVarStrongBranchingVanilla h d.forcestrongbranch probe n
        (List.replicate n 0) (List.replicate n false)).validscores.length = n := by
      rw [hlen.2, List.length_replicate]
    refine ⟨⟨hlen1, hlen2⟩, rfl, _, _, rfl, rfl, hlen1, hlen2⟩

theorem c9_witness :
    buffersOk (includeBranchruleData true)
    ∧ buffersOk (branchFreeFullstrong (includeBranchruleData true))
    ∧ buffersOk (branchExeclpFullstrong wHost probeC1 (includeBranchruleData true) 2).data :=
  ⟨c9_buffer_pairing_invariant.1 true,
    c9_buffer_pairing_invariant.2.1 (includeBranchruleData true) trivial,
    (c9_buffer_pairing_invariant.2.2 wHost probeC1 (includeBranchruleData true) 2).1⟩

end Vanilla
